import Mathlib

/-!
Verification of the snx HTTP routing core (src/http/routing/{route,router}.rs,
src/http/request.rs, src/http/method.rs), shallowly embedded in Lean.

Rust strings are modelled as Lean `String`; segment computations work on the
underlying character list (`String.data`), with `str::split` re-implemented
character by character so its behaviour is open to induction.
Rust's `HashMap<String, String>` is modelled as an association list with
insert-overwrites semantics (`hmInsert` / `hmFind`); the claims about the
parameter map are stated through `hmFind`, so the concrete representation
order never matters.
The two `todo!()` panic sites in `Router::route` are modelled by the
`MatchFault` error of an `Except`: a call that would panic in Rust returns
`Except.error` here, a call that returns normally returns `Except.ok`.
-/

deriving instance DecidableEq for Except

namespace Snx

/-- HTTP method enumeration, from src/http/method.rs. -/
inductive Method where
  | GET
  | HEAD
  | POST
  | PUT
  | DELETE
  | CONNECT
  | OPTIONS
  | TRACE
  | PATCH
  | NON_STANDARD (verb : String)
deriving DecidableEq, Repr

/-- A route declaration, from src/http/routing/route.rs: a method plus a path
pattern string. -/
structure Route where
  method : Method
  path : String
deriving DecidableEq, Repr

/-- Route::get, from src/http/routing/route.rs. -/
def Route.get (path : String) : Route :=
  { method := Method.GET, path := path }

/-- Route::post, from src/http/routing/route.rs. -/
def Route.post (path : String) : Route :=
  { method := Method.POST, path := path }

/-- A parsed request, from src/http/request.rs: only a path and headers. Note
that the Rust struct carries no method field at all. -/
structure Request where
  path : String
  headers : List (String × String)
deriving DecidableEq, Repr

/-- Rust str::split on a single separator character: splits at every
occurrence of the separator, keeping empty pieces, and yields one (empty)
piece on empty input. -/
def splitSep (sep : Char) : List Char → List (List Char)
  | [] => [[]]
  | c :: cs =>
    if c = sep then [] :: splitSep sep cs
    else (c :: (splitSep sep cs).headD []) :: (splitSep sep cs).tail

/-- Segment list of a path: split on the slash character, then drop empty
segments, exactly as both Router::route splits (lines 138-140 of router.rs). -/
def segsOfPath (p : String) : List (List Char) :=
  (splitSep '/' p.data).filter (fun s => !s.isEmpty)

/-- The DYNAMIC_CHARS test of router.rs line 77: whether the path string
contains the character colon or the character star anywhere. -/
def isDynamicPath (p : String) : Bool :=
  p.data.any (fun c => c = ':' || c = '*')

/-- The comparator of RouterBuilder::sort_routes (router.rs lines 76-78):
a stays weakly before b when a is static or b is dynamic, i.e. exactly when
the Rust comparator (!b.path.contains(DYNAMIC_CHARS)).cmp(&!a.path.contains(
DYNAMIC_CHARS)) does not return Greater. -/
def routeLe (a b : Route) : Bool :=
  !isDynamicPath a.path || isDynamicPath b.path

/-- Stable insertion of a route into an already-sorted list: the inserted
route keeps its place before every element it compares less-or-equal to. -/
def insertSorted (x : Route) : List Route → List Route
  | [] => [x]
  | y :: ys => if routeLe x y then x :: y :: ys else y :: insertSorted x ys

/-- RouterBuilder::sort_routes (router.rs lines 75-79). Rust Vec::sort_by is
a stable sort and routeLe is a total preorder, so every stable sort produces
the same output; it is modelled here by stable insertion sort. -/
def sortRoutes (l : List Route) : List Route :=
  l.foldr insertSorted []

/-- The builder, from router.rs lines 16-19. -/
structure RouterBuilder where
  routes : List Route
deriving DecidableEq, Repr

/-- The built route table, from router.rs lines 93-96. -/
structure Router where
  routes : List Route
deriving DecidableEq, Repr

/-- RouterBuilder::new (router.rs lines 23-25). -/
def RouterBuilder.new : RouterBuilder :=
  { routes := [] }

/-- RouterBuilder::add_route (router.rs lines 37-41): push one route. -/
def RouterBuilder.add_route (b : RouterBuilder) (r : Route) : RouterBuilder :=
  { routes := b.routes ++ [r] }

/-- RouterBuilder::add_routes (router.rs lines 53-57): extend with a slice. -/
def RouterBuilder.add_routes (b : RouterBuilder) (rs : List Route) : RouterBuilder :=
  { routes := b.routes ++ rs }

/-- RouterBuilder::build (router.rs lines 66-72): sort, then wrap. -/
def RouterBuilder.build (b : RouterBuilder) : Router :=
  { routes := sortRoutes b.routes }

/-- Parameter map: Rust HashMap<String, String>, as an association list. -/
abbrev Params := List (String × String)

/-- HashMap::insert semantics: any earlier entry for the key is replaced. -/
def hmInsert (m : Params) (k v : String) : Params :=
  m.filter (fun kv => kv.1 ≠ k) ++ [(k, v)]

/-- HashMap::get semantics: look up the value stored under a key. -/
def hmFind (m : Params) (k : String) : Option String :=
  (m.find? (fun kv => kv.1 = k)).map (fun kv => kv.2)

/-- A successful match, from router.rs lines 88-91: the matched route and an
optional parameter map. -/
structure MatchedRoute where
  route : Route
  params : Option Params
deriving DecidableEq, Repr

/-- The two todo panic sites of Router::route: line 144 (a star segment met
during the pairwise walk) and line 155 (a star segment right after the zipped
prefix when the pattern is longer than the request). -/
inductive MatchFault where
  | wildcardInPath
  | wildcardAtEnd
deriving DecidableEq, Repr

/-- Result of the pairwise segment walk of one candidate (router.rs lines
142-151), carrying the parameter map, which is shared across candidates in
the Rust code and therefore must be threaded through rejections too. -/
inductive WalkRes where
  | panic
  | reject (params : Params)
  | ok (params : Params)
deriving DecidableEq, Repr

/-- The pairwise walk over the zipped (pattern segment, request segment)
pairs, router.rs lines 142-151: a star segment panics (todo), a segment
starting with a colon binds the rest of the segment as a parameter name, a
differing literal rejects the candidate, an equal literal walks on. -/
def walk (params : Params) : List (List Char × List Char) → WalkRes
  | [] => WalkRes.ok params
  | (rseg, qseg) :: rest =>
    if rseg = ['*'] then WalkRes.panic
    else if rseg.head? = some ':' then
      walk (hmInsert params (String.mk (rseg.drop 1)) (String.mk qseg)) rest
    else if rseg ≠ qseg then WalkRes.reject params
    else walk params rest

/-- Outcome of examining one candidate route. -/
inductive CandRes where
  | fault (f : MatchFault)
  | reject (params : Params)
  | matched (params : Params)
deriving DecidableEq, Repr

/-- One iteration of the candidate loop of Router::route (router.rs lines
142-170): the pairwise walk, then the two length checks. The index
route_segments[request_segments.len()] of line 154 is taken under the guard
that the pattern is strictly longer, so the getD default is never used. -/
def candidateStep (params : Params) (rsegs qsegs : List (List Char)) : CandRes :=
  match walk params (rsegs.zip qsegs) with
  | WalkRes.panic => CandRes.fault MatchFault.wildcardInPath
  | WalkRes.reject ps => CandRes.reject ps
  | WalkRes.ok ps =>
    if rsegs.length > qsegs.length then
      if rsegs.getD qsegs.length [] = ['*'] then CandRes.fault MatchFault.wildcardAtEnd
      else CandRes.reject ps
    else if qsegs.length > rsegs.length then CandRes.reject ps
    else CandRes.matched ps

/-- The candidate loop of Router::route (router.rs lines 137-171): first
match wins; the parameter map persists across rejected candidates because
the Rust code declares it once outside the loop and never clears it. -/
def routeAux (qsegs : List (List Char)) : Params → List Route → Except MatchFault (Option MatchedRoute)
  | _, [] => Except.ok none
  | params, r :: rest =>
    match candidateStep params (segsOfPath r.path) qsegs with
    | CandRes.fault f => Except.error f
    | CandRes.reject ps => routeAux qsegs ps rest
    | CandRes.matched ps => Except.ok (some { route := r, params := some ps })

/-- Router::route (router.rs lines 133-174). The request segments are
recomputed inside the Rust loop but never change, so they are computed once
here. Only request.path is ever read from the request. -/
def Router.route (router : Router) (request : Request) : Except MatchFault (Option MatchedRoute) :=
  routeAux (segsOfPath request.path) [] router.routes

/-- The parameter insertions a completed walk performs, read off the zipped
pairs: exactly the inserts of the colon branch of router.rs line 147. -/
def bindAll (ps : Params) : List (List Char × List Char) → Params
  | [] => ps
  | (rseg, qseg) :: rest =>
    if rseg.head? = some ':' then
      bindAll (hmInsert ps (String.mk (rseg.drop 1)) (String.mk qseg)) rest
    else bindAll ps rest

/-- The (parameter name, request segment value) pairs a pattern/request
segment pairing gives rise to, in walk order. -/
def pairBindings (pairs : List (List Char × List Char)) : Params :=
  pairs.filterMap (fun pq =>
    if pq.1.head? = some ':' then
      some (String.mk (pq.1.drop 1), String.mk pq.2)
    else none)

/-- The parameter names declared by a pattern's segment list: the remainder
after the colon of every segment that begins with a colon. -/
def paramNames (rsegs : List (List Char)) : List String :=
  rsegs.filterMap (fun s =>
    if s.head? = some ':' then some (String.mk (s.drop 1)) else none)

/-- Modelled from the spec's words, for comparison with the code's
isDynamicPath only: a path with no dynamic segment (a segment beginning with
a colon) and no wildcard segment (a segment equal to a bare star). -/
def specStaticPath (p : String) : Bool :=
  (segsOfPath p).all (fun s => !(s.head? = some ':') && !(s = ['*']))

/-- Whether a pattern has a bare star segment (a wildcard segment). -/
def hasWildcardSeg (p : String) : Bool :=
  (segsOfPath p).any (fun s => s = ['*'])

/-! Sorting: RouterBuilder::build performs the stable static-before-dynamic
partition, where static means the DYNAMIC_CHARS character test of line 77. -/

theorem insertSorted_static (x : Route) (hx : isDynamicPath x.path = false) (l : List Route) :
    insertSorted x l = x :: l := by
  cases l with
  | nil => rfl
  | cons y ys => simp [insertSorted, routeLe, hx]

theorem insertSorted_dyn (x : Route) (hx : isDynamicPath x.path = true)
    (A B : List Route) (hA : ∀ y ∈ A, isDynamicPath y.path = false)
    (hB : ∀ y ∈ B, isDynamicPath y.path = true) :
    insertSorted x (A ++ B) = A ++ x :: B := by
  induction A with
  | nil =>
    cases B with
    | nil => rfl
    | cons z zs =>
      have hz := hB z (List.mem_cons_self z zs)
      simp [insertSorted, routeLe, hx, hz]
  | cons a A ih =>
    have ha : isDynamicPath a.path = false := hA a (List.mem_cons_self a A)
    have hle : routeLe x a = false := by simp [routeLe, hx, ha]
    have ih' := ih (fun y hy => hA y (List.mem_cons_of_mem a hy))
    simp [insertSorted, hle, ih']

theorem sortRoutes_partition (l : List Route) :
    sortRoutes l =
      l.filter (fun r => !isDynamicPath r.path) ++ l.filter (fun r => isDynamicPath r.path) := by
  induction l with
  | nil => rfl
  | cons x xs ih =>
    have hs : sortRoutes (x :: xs) = insertSorted x (sortRoutes xs) := rfl
    cases hx : isDynamicPath x.path with
    | false =>
      rw [hs, ih, insertSorted_static x hx]
      simp [List.filter_cons, hx]
    | true =>
      rw [hs, ih, insertSorted_dyn x hx _ _
        (fun y hy => by
          have := (List.mem_filter.mp hy).2
          simpa using this)
        (fun y hy => by
          have := (List.mem_filter.mp hy).2
          simpa using this)]
      simp [List.filter_cons, hx]

/-! Segment lemmas: every character of a segment comes from the path, so a
path that passes the static character test has no star and no colon-headed
segment. -/

theorem splitSep_ne_nil (sep : Char) (l : List Char) : splitSep sep l ≠ [] := by
  cases l with
  | nil => simp [splitSep]
  | cons c cs => by_cases h : c = sep <;> simp [splitSep, h]

theorem mem_of_mem_splitSep {sep : Char} {l s : List Char} {c : Char}
    (hs : s ∈ splitSep sep l) (hc : c ∈ s) : c ∈ l := by
  induction l generalizing s with
  | nil =>
    simp [splitSep] at hs
    subst hs
    simp at hc
  | cons d cs ih =>
    by_cases hd : d = sep
    · simp only [splitSep, if_pos hd] at hs
      rcases List.mem_cons.mp hs with hs | hs
      · subst hs; simp at hc
      · exact List.mem_cons_of_mem d (ih hs hc)
    · simp only [splitSep, if_neg hd] at hs
      rcases List.mem_cons.mp hs with hs | hs
      · subst hs
        rcases List.mem_cons.mp hc with hc | hc
        · rw [hc]; exact List.mem_cons_self d cs
        · cases hrec : splitSep sep cs with
          | nil => exact absurd hrec (splitSep_ne_nil sep cs)
          | cons t ts =>
            rw [hrec] at hc
            simp at hc
            exact List.mem_cons_of_mem d
              (ih (s := t) (by rw [hrec]; exact List.mem_cons_self t ts) hc)
      · cases hrec : splitSep sep cs with
        | nil => exact absurd hrec (splitSep_ne_nil sep cs)
        | cons t ts =>
          rw [hrec] at hs
          simp at hs
          exact List.mem_cons_of_mem d
            (ih (by rw [hrec]; exact List.mem_cons_of_mem t hs) hc)

theorem mem_data_of_mem_segsOfPath {p : String} {s : List Char} {c : Char}
    (hs : s ∈ segsOfPath p) (hc : c ∈ s) : c ∈ p.data :=
  mem_of_mem_splitSep (List.mem_filter.mp hs).1 hc

theorem static_segs {p : String} (hp : isDynamicPath p = false) :
    ∀ s ∈ segsOfPath p, s ≠ ['*'] ∧ s.head? ≠ some ':' := by
  intro s hs
  have h1 : ¬(p.data.any (fun c => c = ':' || c = '*') = true) := by
    simp only [isDynamicPath] at hp
    rw [hp]
    simp
  have hall : ∀ c ∈ p.data, c ≠ ':' ∧ c ≠ '*' := by
    intro c hcm
    constructor
    · intro he; exact h1 (List.any_eq_true.mpr ⟨c, hcm, by simp [he]⟩)
    · intro he; exact h1 (List.any_eq_true.mpr ⟨c, hcm, by simp [he]⟩)
  constructor
  · intro hstar
    subst hstar
    exact (hall '*' (mem_data_of_mem_segsOfPath hs (by simp))).2 rfl
  · intro hcolon
    have hmem : ':' ∈ s := by
      cases s with
      | nil => simp at hcolon
      | cons a as =>
        simp at hcolon
        subst hcolon
        exact List.mem_cons_self ':' as
    exact (hall ':' (mem_data_of_mem_segsOfPath hs hmem)).1 rfl

/-! Walk lemmas: behaviour of the pairwise segment walk on static patterns,
on star-free patterns, and its effect on the parameter map. -/

theorem walk_static (ps : Params) (pairs : List (List Char × List Char))
    (h : ∀ pq ∈ pairs, pq.1 ≠ ['*'] ∧ pq.1.head? ≠ some ':') :
    (walk ps pairs = WalkRes.ok ps ∧ ∀ pq ∈ pairs, pq.1 = pq.2) ∨
      walk ps pairs = WalkRes.reject ps := by
  induction pairs with
  | nil => exact Or.inl ⟨rfl, by simp⟩
  | cons pq rest ih =>
    obtain ⟨a, b⟩ := pq
    have ha := h (a, b) (List.mem_cons_self _ _)
    by_cases hab : a = b
    · subst hab
      rcases ih (fun x hx => h x (List.mem_cons_of_mem _ hx)) with ⟨hok, hall⟩ | hrej
      · refine Or.inl ⟨by simp [walk, ha.1, ha.2, hok], ?_⟩
        intro x hx
        rcases List.mem_cons.mp hx with hx | hx
        · rw [hx]
        · exact hall x hx
      · exact Or.inr (by simp [walk, ha.1, ha.2, hrej])
    · exact Or.inr (by simp [walk, ha.1, ha.2, hab])

theorem walk_zip_self (ps : Params) (l : List (List Char))
    (h : ∀ s ∈ l, s ≠ ['*'] ∧ s.head? ≠ some ':') :
    walk ps (l.zip l) = WalkRes.ok ps := by
  induction l with
  | nil => rfl
  | cons s t ih =>
    have hs := h s (List.mem_cons_self _ _)
    have ih' := ih (fun x hx => h x (List.mem_cons_of_mem _ hx))
    show walk ps ((s, s) :: t.zip t) = WalkRes.ok ps
    simpa [walk, hs.1, hs.2] using ih'

theorem walk_no_star (ps : Params) (pairs : List (List Char × List Char))
    (h : ∀ pq ∈ pairs, pq.1 ≠ ['*']) :
    (∃ ps', walk ps pairs = WalkRes.ok ps') ∨
      (∃ ps', walk ps pairs = WalkRes.reject ps') := by
  induction pairs generalizing ps with
  | nil => exact Or.inl ⟨ps, rfl⟩
  | cons pq rest ih =>
    obtain ⟨a, b⟩ := pq
    have ha := h (a, b) (List.mem_cons_self _ _)
    have hrest := fun x hx => h x (List.mem_cons_of_mem _ hx)
    by_cases hcol : a.head? = some ':'
    · have := ih (hmInsert ps (String.mk (a.drop 1)) (String.mk b)) hrest
      simpa [walk, ha, hcol] using this
    · by_cases hab : a = b
      · subst hab
        have := ih ps hrest
        simpa [walk, ha, hcol] using this
      · exact Or.inr ⟨ps, by simp [walk, ha, hcol, hab]⟩

theorem walk_ok_bindAll {ps ps' : Params} {pairs : List (List Char × List Char)}
    (h : walk ps pairs = WalkRes.ok ps') : ps' = bindAll ps pairs := by
  induction pairs generalizing ps with
  | nil =>
    simp only [walk, WalkRes.ok.injEq] at h
    simp [bindAll, h]
  | cons pq rest ih =>
    obtain ⟨a, b⟩ := pq
    by_cases hstar : a = ['*']
    · simp [walk, hstar] at h
    · by_cases hcol : a.head? = some ':'
      · simp only [walk, if_neg hstar, if_pos hcol] at h
        simp only [bindAll, if_pos hcol]
        exact ih h
      · by_cases hab : a = b
        · subst hab
          simp only [walk] at h
          rw [if_neg hstar, if_neg hcol, if_neg (by simp)] at h
          simp only [bindAll, if_neg hcol]
          exact ih h
        · simp [walk, hstar, hcol, hab] at h

/-! Parameter map lemmas: HashMap insert/lookup semantics. -/

theorem find?_filter_ne (m : Params) (k : String) :
    (m.filter (fun kv => kv.1 ≠ k)).find? (fun kv => kv.1 = k) = none := by
  induction m with
  | nil => rfl
  | cons kv m ih =>
    by_cases h : kv.1 = k
    · simp [List.filter_cons, h, ih]
    · simp [List.filter_cons, List.find?, h, ih]

theorem find?_append_none {α : Type} {p : α → Bool} {l₁ : List α}
    (h : l₁.find? p = none) (l₂ : List α) :
    (l₁ ++ l₂).find? p = l₂.find? p := by
  induction l₁ with
  | nil => rfl
  | cons a l ih =>
    cases hpa : p a with
    | true => simp [List.find?, hpa] at h
    | false =>
      simp only [List.find?, hpa] at h
      simpa [List.find?, hpa] using ih h

theorem hmFind_insert_self (m : Params) (k v : String) :
    hmFind (hmInsert m k v) k = some v := by
  unfold hmFind hmInsert
  rw [find?_append_none (find?_filter_ne m k)]
  simp [List.find?]

theorem hmFind_insert_ne (m : Params) (k v k' : String) (h : k' ≠ k) :
    hmFind (hmInsert m k v) k' = hmFind m k' := by
  induction m with
  | nil => simp [hmFind, hmInsert, List.find?, Ne.symm h]
  | cons kv m ih =>
    by_cases hk : kv.1 = k <;> by_cases hp : kv.1 = k' <;>
      simp_all [hmFind, hmInsert, List.filter_cons, List.find?]

theorem bindAll_find_not_mem {n : String} (pairs : List (List Char × List Char))
    (h : n ∉ (pairBindings pairs).map Prod.fst) (ps : Params) :
    hmFind (bindAll ps pairs) n = hmFind ps n := by
  induction pairs generalizing ps with
  | nil => rfl
  | cons pq rest ih =>
    obtain ⟨a, b⟩ := pq
    by_cases hcol : a.head? = some ':'
    · simp only [pairBindings, List.filterMap_cons, if_pos hcol, List.map_cons,
        List.mem_cons, not_or] at h
      have hname : n ≠ String.mk (a.drop 1) := h.1
      have hrest : n ∉ (pairBindings rest).map Prod.fst := h.2
      simp only [bindAll, if_pos hcol]
      rw [ih hrest]
      exact hmFind_insert_ne ps _ _ n hname
    · simp only [pairBindings, List.filterMap_cons, if_neg hcol] at h
      simp only [bindAll, if_neg hcol]
      exact ih h ps

theorem bindAll_find_binding (pairs : List (List Char × List Char))
    (hnd : ((pairBindings pairs).map Prod.fst).Nodup) :
    ∀ nv ∈ pairBindings pairs, ∀ ps, hmFind (bindAll ps pairs) nv.1 = some nv.2 := by
  induction pairs with
  | nil => intro nv hnv; simp [pairBindings] at hnv
  | cons pq rest ih =>
    obtain ⟨a, b⟩ := pq
    by_cases hcol : a.head? = some ':'
    · intro nv hnv ps
      simp only [pairBindings, List.filterMap_cons, if_pos hcol] at hnv hnd
      simp only [List.map_cons, List.nodup_cons] at hnd
      simp only [bindAll, if_pos hcol]
      rcases List.mem_cons.mp hnv with hnv | hnv
      · subst hnv
        rw [bindAll_find_not_mem rest hnd.1]
        exact hmFind_insert_self _ _ _
      · exact ih hnd.2 nv hnv _
    · intro nv hnv ps
      simp only [pairBindings, List.filterMap_cons, if_neg hcol] at hnv hnd
      simp only [bindAll, if_neg hcol]
      exact ih hnd nv hnv ps

theorem pairBindings_names_eq (rsegs : List (List Char)) :
    ∀ qsegs : List (List Char), rsegs.length = qsegs.length →
      (pairBindings (rsegs.zip qsegs)).map Prod.fst = paramNames rsegs := by
  induction rsegs with
  | nil => intro qsegs h; simp [pairBindings, paramNames]
  | cons a rs ih =>
    intro qsegs h
    cases qsegs with
    | nil => simp at h
    | cons b qs =>
      simp only [List.length_cons, Nat.succ.injEq] at h
      have hzip : (a :: rs).zip (b :: qs) = (a, b) :: rs.zip qs := rfl
      by_cases hcol : a.head? = some ':'
      · have h1 : pairBindings ((a, b) :: rs.zip qs) =
            (String.mk (a.drop 1), String.mk b) :: pairBindings (rs.zip qs) := by
          simp [pairBindings, List.filterMap_cons, hcol]
        have h2 : paramNames (a :: rs) = String.mk (a.drop 1) :: paramNames rs := by
          simp [paramNames, List.filterMap_cons, hcol]
        rw [hzip, h1, h2, List.map_cons, ih qs h]
      · have h1 : pairBindings ((a, b) :: rs.zip qs) = pairBindings (rs.zip qs) := by
          simp [pairBindings, List.filterMap_cons, hcol]
        have h2 : paramNames (a :: rs) = paramNames rs := by
          simp [paramNames, List.filterMap_cons, hcol]
        rw [hzip, h1, h2, ih qs h]

/-! Candidate and loop lemmas. -/

theorem zip_all_eq {α : Type} {l₁ l₂ : List α} (hlen : l₁.length = l₂.length)
    (h : ∀ pq ∈ l₁.zip l₂, pq.1 = pq.2) : l₁ = l₂ := by
  induction l₁ generalizing l₂ with
  | nil =>
    cases l₂ with
    | nil => rfl
    | cons b bs => simp at hlen
  | cons a as ih =>
    cases l₂ with
    | nil => simp at hlen
    | cons b bs =>
      simp only [List.length_cons, Nat.succ.injEq] at hlen
      have h1 := h (a, b) (List.mem_cons_self _ _)
      have h2 := ih hlen (fun pq hpq => h pq (List.mem_cons_of_mem _ hpq))
      rw [show a = b from h1, h2]

theorem getD_mem_of_lt {α : Type} (l : List α) (n : ℕ) (d : α) (h : n < l.length) :
    l.getD n d ∈ l := by
  rw [List.getD_eq_getElem l d h]
  exact List.getElem_mem h

theorem candidateStep_matched_inv {ps psm : Params} {rsegs qsegs : List (List Char)}
    (h : candidateStep ps rsegs qsegs = CandRes.matched psm) :
    walk ps (rsegs.zip qsegs) = WalkRes.ok psm ∧ rsegs.length = qsegs.length := by
  cases hw : walk ps (rsegs.zip qsegs) with
  | panic => simp [candidateStep, hw] at h
  | reject ps' => simp [candidateStep, hw] at h
  | ok ps' =>
    simp only [candidateStep, hw] at h
    by_cases h1 : rsegs.length > qsegs.length
    · rw [if_pos h1] at h
      by_cases h2 : rsegs.getD qsegs.length [] = ['*']
      · rw [if_pos h2] at h; simp at h
      · rw [if_neg h2] at h; simp at h
    · rw [if_neg h1] at h
      by_cases h2 : qsegs.length > rsegs.length
      · rw [if_pos h2] at h; simp at h
      · rw [if_neg h2] at h
        simp only [CandRes.matched.injEq] at h
        subst h
        exact ⟨rfl, by omega⟩

theorem routeAux_static_hit (qsegs : List (List Char)) (ps : Params)
    (l₁ l₂ : List Route)
    (hstat : ∀ r ∈ l₁, isDynamicPath r.path = false)
    (hex : ∃ r ∈ l₁, segsOfPath r.path = qsegs) :
    ∃ mr, routeAux qsegs ps (l₁ ++ l₂) = Except.ok (some mr) ∧
      isDynamicPath mr.route.path = false ∧ segsOfPath mr.route.path = qsegs := by
  induction l₁ generalizing ps with
  | nil => rcases hex with ⟨r, hr, _⟩; simp at hr
  | cons r l₁ ih =>
    have hrs := hstat r (List.mem_cons_self _ _)
    have hsegs := static_segs hrs
    have hstat' := fun x hx => hstat x (List.mem_cons_of_mem _ hx)
    by_cases heq : segsOfPath r.path = qsegs
    · have hq : ∀ s ∈ qsegs, s ≠ ['*'] ∧ s.head? ≠ some ':' := by
        rw [← heq]; exact hsegs
      have hwalk : walk ps ((segsOfPath r.path).zip qsegs) = WalkRes.ok ps := by
        rw [heq]; exact walk_zip_self ps qsegs hq
      have hcand : candidateStep ps (segsOfPath r.path) qsegs = CandRes.matched ps := by
        simp only [candidateStep, hwalk]
        rw [heq]
        simp
      refine ⟨⟨r, some ps⟩, ?_, hrs, heq⟩
      simp only [List.cons_append, routeAux, hcand]
    · have hex' : ∃ x ∈ l₁, segsOfPath x.path = qsegs := by
        rcases hex with ⟨x, hx, hxq⟩
        rcases List.mem_cons.mp hx with hx | hx
        · exact absurd (hx ▸ hxq) heq
        · exact ⟨x, hx, hxq⟩
      have hpairs : ∀ pq ∈ (segsOfPath r.path).zip qsegs, pq.1 ≠ ['*'] ∧ pq.1.head? ≠ some ':' := by
        intro pq hpq
        exact hsegs pq.1 (List.of_mem_zip (by rwa [show ((pq.1, pq.2) : _ × _) = pq from rfl])).1
      rcases walk_static ps _ hpairs with ⟨hok, hall⟩ | hrej
      · by_cases h1 : (segsOfPath r.path).length > qsegs.length
        · have hstar : ¬((segsOfPath r.path).getD qsegs.length [] = ['*']) :=
            (hsegs _ (getD_mem_of_lt _ _ _ h1)).1
          have hcand : candidateStep ps (segsOfPath r.path) qsegs = CandRes.reject ps := by
            simp only [candidateStep, hok]
            rw [if_pos h1, if_neg hstar]
          have := ih ps hstat' hex'
          simpa only [List.cons_append, routeAux, hcand] using this
        · by_cases h2 : qsegs.length > (segsOfPath r.path).length
          · have hcand : candidateStep ps (segsOfPath r.path) qsegs = CandRes.reject ps := by
              simp only [candidateStep, hok]
              rw [if_neg h1, if_pos h2]
            have := ih ps hstat' hex'
            simpa only [List.cons_append, routeAux, hcand] using this
          · have hlen : (segsOfPath r.path).length = qsegs.length := by omega
            exact absurd (zip_all_eq hlen hall) heq
      · have hcand : candidateStep ps (segsOfPath r.path) qsegs = CandRes.reject ps := by
          simp only [candidateStep, hrej]
        have := ih ps hstat' hex'
        simpa only [List.cons_append, routeAux, hcand] using this

theorem routeAux_ok_some {qsegs : List (List Char)} {ps : Params} {routes : List Route}
    {mr : MatchedRoute}
    (h : routeAux qsegs ps routes = Except.ok (some mr)) :
    ∃ ps₀ psm, mr.params = some psm ∧
      candidateStep ps₀ (segsOfPath mr.route.path) qsegs = CandRes.matched psm := by
  induction routes generalizing ps with
  | nil => simp [routeAux] at h
  | cons r rest ih =>
    cases hc : candidateStep ps (segsOfPath r.path) qsegs with
    | fault f => simp [routeAux, hc] at h
    | reject ps' =>
      simp only [routeAux, hc] at h
      exact ih h
    | matched psm =>
      simp only [routeAux, hc, Except.ok.injEq, Option.some.injEq] at h
      subst h
      exact ⟨ps, psm, rfl, hc⟩

/-! Claim theorems. -/

/-- C1: every route table built from a list containing both the static route
GET /posts/1 and the dynamic route GET /posts/:id, in whatever insertion
order, matches the request path /posts/1 to a static route whose segments
are exactly posts, 1 — never the /posts/:id route; and on the canonical
two-route tables, in either insertion order, the result is exactly the
GET /posts/1 route. -/
theorem claim1_static_route_wins :
    (∀ (l : List Route) (hs : List (String × String)),
      Route.get "/posts/1" ∈ l → Route.get "/posts/:id" ∈ l →
      ∃ mr,
        Router.route (RouterBuilder.build { routes := l })
            { path := "/posts/1", headers := hs } = Except.ok (some mr) ∧
        isDynamicPath mr.route.path = false ∧
        segsOfPath mr.route.path = segsOfPath "/posts/1" ∧
        mr.route ≠ Route.get "/posts/:id") ∧
    Router.route (RouterBuilder.build
        { routes := [Route.get "/posts/:id", Route.get "/posts/1"] })
        { path := "/posts/1", headers := [] } =
      Except.ok (some { route := Route.get "/posts/1", params := some [] }) ∧
    Router.route (RouterBuilder.build
        { routes := [Route.get "/posts/1", Route.get "/posts/:id"] })
        { path := "/posts/1", headers := [] } =
      Except.ok (some { route := Route.get "/posts/1", params := some [] }) := by
  refine ⟨?_, by decide, by decide⟩
  intro l hs h1 _h2
  have hroute : Router.route (RouterBuilder.build { routes := l })
      { path := "/posts/1", headers := hs } =
      routeAux (segsOfPath "/posts/1") [] (sortRoutes l) := rfl
  rw [hroute, sortRoutes_partition l]
  have hstat : ∀ r ∈ l.filter (fun r => !isDynamicPath r.path),
      isDynamicPath r.path = false := by
    intro r hr
    have := (List.mem_filter.mp hr).2
    simpa using this
  have hex : ∃ r ∈ l.filter (fun r => !isDynamicPath r.path),
      segsOfPath r.path = segsOfPath "/posts/1" :=
    ⟨Route.get "/posts/1", List.mem_filter.mpr ⟨h1, by decide⟩, rfl⟩
  obtain ⟨mr, hmr, hstatmr, hsegsmr⟩ :=
    routeAux_static_hit (segsOfPath "/posts/1") [] _ _ hstat hex
  refine ⟨mr, hmr, hstatmr, hsegsmr, ?_⟩
  intro he
  rw [he] at hstatmr
  exact absurd hstatmr (by decide)

/-- Witness for C1 at the canonical table with the dynamic route inserted
first. -/
theorem claim1_witness :
    ∃ mr,
      Router.route (RouterBuilder.build
          { routes := [Route.get "/posts/:id", Route.get "/posts/1"] })
          { path := "/posts/1", headers := [] } = Except.ok (some mr) ∧
      isDynamicPath mr.route.path = false ∧
      segsOfPath mr.route.path = segsOfPath "/posts/1" ∧
      mr.route ≠ Route.get "/posts/:id" :=
  claim1_static_route_wins.1 [Route.get "/posts/:id", Route.get "/posts/1"] []
    (by decide) (by decide)

/-- C2 is violated by the code: Router::route never inspects any HTTP
method — the Request struct has no method field at all — so a table holding
only the POST /posts route still matches a request whose path is /posts,
whatever method that request was sent with. This evaluates the code at the
failing input. -/
theorem claim2_method_ignored :
    Router.route (RouterBuilder.build { routes := [Route.post "/posts"] })
        { path := "/posts", headers := [] } =
      Except.ok (some { route := Route.post "/posts", params := some [] }) := by
  decide

/-- C3 fails on the code as stated: the parameter map is created once
outside the candidate loop and never cleared, so the binding of x to 7
recorded while scanning the rejected candidate /a/:x/c survives into the
returned map of the matched route /a/:y, whose pattern declares no
parameter named x. -/
theorem claim3_counterexample :
    Router.route (RouterBuilder.build
        { routes := [Route.get "/a/:x/c", Route.get "/a/:y"] })
        { path := "/a/7", headers := [] } =
      Except.ok (some (MatchedRoute.mk (Route.get "/a/:y")
        (some [("x", "7"), ("y", "7")]))) ∧
    hmFind [("x", "7"), ("y", "7")] "x" = some "7" ∧
    paramNames (segsOfPath "/a/:y") = ["y"] := by
  decide

/-- C3 amended: when a match is returned, the parameter map is present and
binds every parameter name of the matched pattern (assumed pairwise
distinct) to the corresponding request segment; the map may additionally
retain bindings recorded while scanning earlier, rejected candidates. -/
theorem claim3_params_bound (router : Router) (request : Request)
    (mr : MatchedRoute)
    (h : Router.route router request = Except.ok (some mr))
    (hnd : (paramNames (segsOfPath mr.route.path)).Nodup) :
    ∃ ps, mr.params = some ps ∧
      ∀ nv ∈ pairBindings
          ((segsOfPath mr.route.path).zip (segsOfPath request.path)),
        hmFind ps nv.1 = some nv.2 := by
  obtain ⟨ps₀, psm, hparams, hcand⟩ := routeAux_ok_some h
  obtain ⟨hwalk, hlen⟩ := candidateStep_matched_inv hcand
  refine ⟨psm, hparams, ?_⟩
  intro nv hnv
  have hnd' : ((pairBindings
      ((segsOfPath mr.route.path).zip (segsOfPath request.path))).map
        Prod.fst).Nodup := by
    rw [pairBindings_names_eq _ _ hlen]
    exact hnd
  have hb := bindAll_find_binding _ hnd' nv hnv ps₀
  rw [walk_ok_bindAll hwalk]
  exact hb

/-- Witness for C3 as amended: the table holding GET /posts/:id matched at
/posts/3 yields a present map binding id to 3. -/
theorem claim3_witness :
    ∃ ps,
      (MatchedRoute.mk (Route.get "/posts/:id") (some [("id", "3")])).params = some ps ∧
      ∀ nv ∈ pairBindings
          ((segsOfPath (MatchedRoute.mk (Route.get "/posts/:id")
            (some [("id", "3")])).route.path).zip (segsOfPath "/posts/3")),
        hmFind ps nv.1 = some nv.2 :=
  claim3_params_bound
    (RouterBuilder.build { routes := [Route.get "/posts/:id"] })
    { path := "/posts/3", headers := [] }
    (MatchedRoute.mk (Route.get "/posts/:id") (some [("id", "3")]))
    (by decide) (by decide)

/-- C4 fails on the code as stated: the partition key is character
containment, not segment shape. The path /a:b has no segment beginning with
a colon and no bare star segment, so the claim puts both /a:b and /c in the
static group and requires their insertion order to be preserved; the code
classifies /a:b as dynamic (its path contains a colon character) and moves
/c in front of it. -/
theorem claim4_counterexample :
    specStaticPath "/a:b" = true ∧ specStaticPath "/c" = true ∧
    RouterBuilder.build { routes := [Route.get "/a:b", Route.get "/c"] } =
      { routes := [Route.get "/c", Route.get "/a:b"] } := by
  decide

/-- C4 amended: build() produces the stable partition of the insertion
sequence keyed by the character test "the path contains a colon or a star
character anywhere": routes without such a character keep their relative
order in front of all routes with one, which also keep theirs. -/
theorem claim4_stable_partition (l : List Route) :
    RouterBuilder.build { routes := l } =
      { routes := l.filter (fun r => !isDynamicPath r.path) ++
          l.filter (fun r => isDynamicPath r.path) } := by
  show Router.mk (sortRoutes l) = _
  rw [sortRoutes_partition l]

/-- C5 is violated by the code: a route set containing the wildcard route
GET /a/* is accepted by build() without any error; a later match call
against request path /b silently reports no match, and a match call against
/a/x faults (the todo panic) only at match time, when the star segment is
actually examined. -/
theorem claim5_wildcard_not_build_time :
    RouterBuilder.build { routes := [Route.get "/a/*"] } =
      { routes := [Route.get "/a/*"] } ∧
    Router.route (RouterBuilder.build { routes := [Route.get "/a/*"] })
        { path := "/b", headers := [] } = Except.ok none ∧
    Router.route (RouterBuilder.build { routes := [Route.get "/a/*"] })
        { path := "/a/x", headers := [] } =
      Except.error MatchFault.wildcardInPath := by
  decide

/-- C6: a candidate whose pattern has no bare star segment is rejected
whenever its segment count differs from the request's segment count, in
either direction; in particular the pattern /posts/:id/comments matches
neither /posts/3 nor /posts/3/comments/extra. -/
theorem claim6_length_mismatch :
    (∀ (ps : Params) (p q : String), hasWildcardSeg p = false →
      (segsOfPath p).length ≠ (segsOfPath q).length →
      ∃ ps', candidateStep ps (segsOfPath p) (segsOfPath q) = CandRes.reject ps') ∧
    Router.route (RouterBuilder.build { routes := [Route.get "/posts/:id/comments"] })
        { path := "/posts/3", headers := [] } = Except.ok none ∧
    Router.route (RouterBuilder.build { routes := [Route.get "/posts/:id/comments"] })
        { path := "/posts/3/comments/extra", headers := [] } = Except.ok none := by
  refine ⟨?_, by decide, by decide⟩
  intro ps p q hw hlen
  have hnostar : ∀ s ∈ segsOfPath p, s ≠ ['*'] := by
    intro s hs he
    have htrue : hasWildcardSeg p = true := by
      unfold hasWildcardSeg
      exact List.any_eq_true.mpr ⟨s, hs, by simp [he]⟩
    rw [hw] at htrue
    exact Bool.false_ne_true htrue
  have hpairs : ∀ pq ∈ (segsOfPath p).zip (segsOfPath q), pq.1 ≠ ['*'] := by
    intro pq hpq
    obtain ⟨a, b⟩ := pq
    exact hnostar a (List.of_mem_zip hpq).1
  rcases walk_no_star ps _ hpairs with ⟨ps', hok⟩ | ⟨ps', hrej⟩
  · by_cases h1 : (segsOfPath p).length > (segsOfPath q).length
    · refine ⟨ps', ?_⟩
      have hstar := hnostar ((segsOfPath p).getD (segsOfPath q).length [])
        (getD_mem_of_lt (segsOfPath p) (segsOfPath q).length [] h1)
      simp only [candidateStep, hok]
      rw [if_pos h1, if_neg hstar]
    · have h2 : (segsOfPath q).length > (segsOfPath p).length := by omega
      refine ⟨ps', ?_⟩
      simp only [candidateStep, hok]
      rw [if_neg h1, if_pos h2]
  · exact ⟨ps', by simp only [candidateStep, hrej]⟩

/-- Witness for C6 at the two lengths of the in-particular examples. -/
theorem claim6_witness :
    (∃ ps', candidateStep [] (segsOfPath "/posts/:id/comments")
        (segsOfPath "/posts/3") = CandRes.reject ps') ∧
    (∃ ps', candidateStep [] (segsOfPath "/posts/:id/comments")
        (segsOfPath "/posts/3/comments/extra") = CandRes.reject ps') :=
  ⟨claim6_length_mismatch.1 [] "/posts/:id/comments" "/posts/3"
      (by decide) (by decide),
    claim6_length_mismatch.1 [] "/posts/:id/comments" "/posts/3/comments/extra"
      (by decide) (by decide)⟩

/-- C7: matching depends on the request path only through its nonempty
segment list, so request paths that differ in leading, trailing or
duplicated slashes give identical results on every route table, whatever
the headers. -/
theorem claim7_normalization (router : Router) (p₁ p₂ : String)
    (h₁ h₂ : List (String × String))
    (hseg : segsOfPath p₁ = segsOfPath p₂) :
    Router.route router { path := p₁, headers := h₁ } =
      Router.route router { path := p₂, headers := h₂ } := by
  show routeAux (segsOfPath p₁) [] router.routes =
    routeAux (segsOfPath p₂) [] router.routes
  rw [hseg]

/-- Witness for C7: /posts//3 and /posts/3 match identically against
/posts/:id, both binding id to 3. -/
theorem claim7_witness :
    Router.route (RouterBuilder.build { routes := [Route.get "/posts/:id"] })
        { path := "/posts//3", headers := [] } =
      Router.route (RouterBuilder.build { routes := [Route.get "/posts/:id"] })
        { path := "/posts/3", headers := [] } ∧
    Router.route (RouterBuilder.build { routes := [Route.get "/posts/:id"] })
        { path := "/posts/3", headers := [] } =
      Except.ok (some (MatchedRoute.mk (Route.get "/posts/:id")
        (some [("id", "3")]))) :=
  ⟨claim7_normalization _ "/posts//3" "/posts/3" [] [] (by decide), by decide⟩

/-- C8: build() on an empty builder yields a table with zero routes, and
matching any request against that table reports no match. -/
theorem claim8_empty_builder :
    RouterBuilder.build RouterBuilder.new = { routes := [] } ∧
    ∀ request : Request,
      Router.route (RouterBuilder.build RouterBuilder.new) request =
        Except.ok none :=
  ⟨rfl, fun _ => rfl⟩

/-- C9: matching is a pure function of the route table and the request's
path: equal tables and equal requests give equal results, and the result
never depends on the request's headers. -/
theorem claim9_pure :
    (∀ (r₁ r₂ : Router) (q₁ q₂ : Request), r₁ = r₂ → q₁ = q₂ →
      Router.route r₁ q₁ = Router.route r₂ q₂) ∧
    (∀ (router : Router) (p : String) (h₁ h₂ : List (String × String)),
      Router.route router { path := p, headers := h₁ } =
        Router.route router { path := p, headers := h₂ }) := by
  constructor
  · intro r₁ r₂ q₁ q₂ hr hq
    rw [hr, hq]
  · intro router p h₁ h₂
    rfl

/-- Witness for C9 on a concrete table and request. -/
theorem claim9_witness :
    Router.route (RouterBuilder.build { routes := [Route.get "/"] })
        { path := "/", headers := [] } =
      Router.route (RouterBuilder.build { routes := [Route.get "/"] })
        { path := "/", headers := [] } :=
  claim9_pure.1 _ _ _ _ rfl rfl

/-- C10: whenever the match operation returns a result, the params field of
the returned MatchedRoute is Some, never None; for a colon-free pattern with
no earlier bindings it is Some of the empty map, as the concrete conjunct
shows. -/
theorem claim10_params_some :
    (∀ (router : Router) (request : Request) (mr : MatchedRoute),
      Router.route router request = Except.ok (some mr) →
      ∃ ps, mr.params = some ps) ∧
    Router.route (RouterBuilder.build { routes := [Route.get "/"] })
        { path := "/", headers := [] } =
      Except.ok (some { route := Route.get "/", params := some [] }) := by
  refine ⟨?_, by decide⟩
  intro router request mr h
  obtain ⟨ps₀, psm, hparams, _⟩ := routeAux_ok_some h
  exact ⟨psm, hparams⟩

/-- Witness for C10 at the root route. -/
theorem claim10_witness :
    ∃ ps, (MatchedRoute.mk (Route.get "/") (some [])).params = some ps :=
  claim10_params_some.1 (RouterBuilder.build { routes := [Route.get "/"] })
    { path := "/", headers := [] }
    (MatchedRoute.mk (Route.get "/") (some [])) (by decide)

end Snx
